import Mathlib

/-!
Verification of the hermez-node off-chain core: a shallow embedding of the
pool-admission API (`api/txspool.go`), the pool L2 transaction codecs
(`common/pooll2tx.go`) and the transaction selector (`txselector` package),
together with theorems settling the specification claims about them.

Machine integers are modelled as `Nat`/`Int`; byte arrays as `List Nat`
(each entry < 256); Go's `*big.Int` fields that may be nil are `Option Int`;
fallible Go functions return `Except String`.  Go `float64` fee fields are
modelled as `ℚ`: the code only ever compares and averages them, and every
concrete instance used below is exactly representable.
-/

namespace HermezNode

/-- A transaction identifier: 12 bytes (`common.TxID`). -/
abbrev TxID := List Nat

/-- The all-zero 12-byte TxID (`common.EmptyTxID`). -/
def EmptyTxID : TxID := List.replicate 12 0

/-- A compressed BabyJubJub public key, abstracted to the data the embedded
code observes about it: the sign bit and the y coordinate returned by
`babyjub.UnpackSignY` (the curve arithmetic is a black box per the spec). -/
structure BJJComp where
  sign : Bool
  y : Nat
deriving DecidableEq, Repr

/-- The 32-zero-byte compressed key (`common.EmptyBJJComp`). -/
def EmptyBJJComp : BJJComp := ⟨false, 0⟩

/-- Ethereum addresses are 20-byte values, modelled as their big-endian
numeric value. `common.EmptyAddr` is the zero address. -/
def EmptyAddr : Nat := 0

/-- `common.FFAddr`, the address with all bytes 0xFF. -/
def FFAddr : Nat := 2 ^ 160 - 1

/-- Modelled from the spec: user accounts start at the implementation-fixed
constant `common.IdxUserThreshold` (= 256; indices 0 and 1 are reserved,
and the tests create the first account at index 256). -/
def IdxUserThreshold : Nat := 256

/-- Modelled from the spec: the L2 prefix byte of `common.TxIDPrefixL2Tx`
distinguishing L2 TxIDs from the two L1 prefixes. -/
def TxIDPrefixL2Tx : Nat := 2

/-- Transaction types (`common.TxType`, a string in Go; `unset` is the empty
string). -/
inductive TxType where
  | unset
  | transfer
  | transferToEthAddr
  | transferToBJJ
  | exit
  | createAccountDeposit
  | deposit
  | depositTransfer
  | createAccountDepositTransfer
  | forceTransfer
  | forceExit
deriving DecidableEq, Repr

/-- The empty atomic-group id (`common.EmptyAtomicGroupID`, 32 zero bytes),
group ids being modelled by their numeric value. -/
def EmptyAtomicGroupID : Nat := 0

/-- A pool L2 transaction (`common.PoolL2Tx`).  `Amount` is modelled non-nil
(a nil `Amount` makes `verifyPoolL2Tx` and `TxCompressedData` dereference a
nil pointer in Go), while the optional `RqAmount` keeps its nilability as
`Option Int`.  The `amountF16` field carries the `Float16` code of `Amount`
for the compressed-data layout (the `Float16` codec itself is a black box
for the claims below, which presuppose a representable amount). -/
structure PoolL2Tx where
  txID : TxID
  fromIdx : Nat
  toIdx : Nat
  toEthAddr : Nat
  toBJJ : BJJComp
  tokenID : Nat
  amount : Int
  amountF16 : Nat
  fee : Nat
  nonce : Nat
  type : TxType
  rqFromIdx : Nat
  rqToIdx : Nat
  rqToEthAddr : Nat
  rqToBJJ : BJJComp
  rqTokenID : Nat
  rqAmount : Option Int
  rqFee : Nat
  rqNonce : Nat
  rqOffset : Nat
  rqTxID : TxID
  atomicGroupID : Nat
  absoluteFee : ℚ
deriving DecidableEq, Repr

/-- An L1 transaction (`common.L1Tx`) restricted to the fields the embedded
code reads; the post-execution effective amounts are nil until the processor
fills them. -/
structure L1Tx where
  fromIdx : Nat
  toIdx : Nat
  tokenID : Nat
  amount : Int
  depositAmount : Int
  fromEthAddr : Nat
  fromBJJ : BJJComp
  type : TxType
  userOrigin : Bool
  position : Nat
  effectiveAmount : Option Int
  effectiveDepositAmount : Option Int
deriving DecidableEq, Repr

/-- An account of the state tree (`common.Account`). -/
structure Account where
  tokenID : Nat
  nonce : Nat
  balance : Int
  ethAddr : Nat
  bjj : BJJComp
deriving DecidableEq, Repr

/-- The account state visible to the embedded code: an association list from
account index to account (first match wins). -/
structure ChainState where
  accounts : List (Nat × Account)
deriving DecidableEq, Repr

/-- `StateDB.GetAccount`: look an account up by index. -/
def getAccount (st : ChainState) (idx : Nat) : Option Account :=
  (st.accounts.find? (fun p => p.1 = idx)).map Prod.snd

/-! ### Big-endian byte encoding

The Go side serialises the fixed-width fields with `binary.BigEndian` and
the `Bytes()` methods of `Idx` (6 bytes), `Nonce` (5 bytes) and `TokenID`
(4 bytes), all big-endian per the spec. -/

/-- The `w`-byte big-endian encoding of `v % 256^w`. -/
def beBytes : Nat → Nat → List Nat
  | 0, _ => []
  | w + 1, v => beBytes w (v / 256) ++ [v % 256]

/-- The numeric value of a big-endian byte string. -/
def beToNat (l : List Nat) : Nat := l.foldl (fun a b => a * 256 + b) 0

/-! ### `requestOffset2RelativePosition` (`api/txspool.go`)

Translates an `RqOffset` byte into a relative position inside an atomic
group.  Offset 0 is rejected with `ErrTxsNotAtomic`; offsets above 7 with
`ErrInvalidRqOffset`. -/

def ErrTxsNotAtomic : String :=
  "there is at least one transaction in the payload that could be forged without the others"

def ErrInvalidRqOffset : String :=
  "Invalid requestOffset. Valid values goes from 0 to 7"

/-- `requestOffset2RelativePosition` from `api/txspool.go`. -/
def requestOffset2RelativePosition (rqoffset : Nat) : Except String Int :=
  match rqoffset with
  | 0 => .error ErrTxsNotAtomic
  | 1 => .ok 1
  | 2 => .ok 2
  | 3 => .ok 3
  | 4 => .ok (-4)
  | 5 => .ok (-3)
  | 6 => .ok (-2)
  | 7 => .ok (-1)
  | _ => .error ErrInvalidRqOffset

/-! ### `common/pooll2tx.go`: SetType, SetID, NewPoolL2Tx, TxCompressedData -/

/-- `PoolL2Tx.SetType`: infer the transaction type from `ToIdx`, `ToEthAddr`
and `ToBJJ`.  When `ToIdx = 0` and no destination matches, the type is left
unchanged (the Go code falls through without error); indices 2..255 are
malformed. -/
def setType (tx : PoolL2Tx) : Except String PoolL2Tx :=
  if tx.toIdx ≥ IdxUserThreshold then .ok { tx with type := .transfer }
  else if tx.toIdx = 1 then .ok { tx with type := .exit }
  else if tx.toIdx = 0 then
    if tx.toBJJ ≠ EmptyBJJComp ∧ tx.toEthAddr = FFAddr then
      .ok { tx with type := .transferToBJJ }
    else if tx.toEthAddr ≠ FFAddr ∧ tx.toEthAddr ≠ EmptyAddr then
      .ok { tx with type := .transferToEthAddr }
    else .ok tx
  else .error "malformed transaction"

/-- The 12 TxID bytes an L2 tx gets from `SetID`: prefix byte, 6-byte
big-endian `FromIdx`, 5-byte big-endian `Nonce`. -/
def l2TxIDBytes (fromIdx nonce : Nat) : TxID :=
  TxIDPrefixL2Tx :: (beBytes 6 fromIdx ++ beBytes 5 nonce)

/-- `PoolL2Tx.SetID`: write the computed TxID into the transaction.
`Idx.Bytes` and `Nonce.Bytes` fail on values outside 48/40 bits (the widths
fixed by the spec data model). -/
def setID (tx : PoolL2Tx) : Except String PoolL2Tx :=
  if tx.fromIdx < 2 ^ 48 then
    if tx.nonce < 2 ^ 40 then
      .ok { tx with txID := l2TxIDBytes tx.fromIdx tx.nonce }
    else .error "Nonce overflow, max value: 2^40 - 1"
  else .error "Idx overflow, max value: 2^48 - 1"

/-- `common.NewPoolL2Tx`: recompute type and TxID, rejecting a tx whose
pre-set non-empty type or TxID disagrees with the recomputed one.  The Go
zero value `TxID{}` compared against is the all-zero byte array. -/
def newPoolL2Tx (tx : PoolL2Tx) : Except String PoolL2Tx :=
  match setType tx with
  | .error e => .error e
  | .ok tx1 =>
      if tx.type ≠ .unset ∧ tx.type ≠ tx1.type then
        .error "L2Tx.Type does not match the computed type"
      else
        match setID tx1 with
        | .error e => .error e
        | .ok tx2 =>
            if tx1.txID ≠ EmptyTxID ∧ tx1.txID ≠ tx2.txID then
              .error "PoolL2Tx.TxID does not match the computed TxID"
            else .ok tx2

/-- Modelled from the spec: the 4 bytes of the protocol signature constant
`common.SignatureConstantBytes` (big-endian 3322668559). -/
def SignatureConstantBytes : List Nat := [198, 11, 230, 15]

/-- The 31-byte array assembled by `PoolL2Tx.TxCompressedData`:
`b[0]` = toBJJSign, `b[1]` = fee, `b[2:7]` = nonce, `b[7:11]` = tokenID,
`b[11:13]` = amountFloat16, `b[13:19]` = toIdx, `b[19:25]` = fromIdx,
`b[25:27]` = chainID, `b[27:31]` = signature constant. -/
def txCompressedDataBytes (tx : PoolL2Tx) (chainID : Nat) : List Nat :=
  [if tx.toBJJ.sign then 1 else 0] ++ [tx.fee] ++
    beBytes 5 tx.nonce ++ beBytes 4 tx.tokenID ++ beBytes 2 tx.amountF16 ++
    beBytes 6 tx.toIdx ++ beBytes 6 tx.fromIdx ++ beBytes 2 chainID ++
    SignatureConstantBytes

/-- `PoolL2Tx.TxCompressedData`: the big integer read big-endian from the
31-byte array (`new(big.Int).SetBytes(b[:])`).  The widths of `Nonce`,
`ToIdx` and `FromIdx` are enforced by their `Bytes()` methods as in the
source. -/
def txCompressedData (tx : PoolL2Tx) (chainID : Nat) : Except String Nat :=
  if tx.nonce < 2 ^ 40 then
    if tx.toIdx < 2 ^ 48 then
      if tx.fromIdx < 2 ^ 48 then
        .ok (beToNat (txCompressedDataBytes tx chainID))
      else .error "Idx overflow, max value: 2^48 - 1"
    else .error "Idx overflow, max value: 2^48 - 1"
  else .error "Nonce overflow, max value: 2^40 - 1"

/-! ### `api/txspool.go`: pool admission

The handler depends on the history DB, the L2 DB, fee computation and
signature cryptography only through the calls below, so those collaborators
are abstracted as an environment record (the spec treats them as external
collaborators / black boxes). -/

def ErrExitAmount0 : String := "Exit transactions with amount 0 are not allowed"

def ErrNotAtomicTxsInPostPoolTx : String :=
  "atomic transactions are only accepted in POST /atomic-pool"

def ErrSingleTxInAtomicEndpoint : String :=
  "to use the atomic-pool endpoint at least two transactions are required"

def ErrRqOffsetOutOfBounds : String :=
  "one or more transactions have an invalid requestOffset"

/-- The collaborators of the API handlers: account lookup from the history
DB, the `CanSendToEthAddr` query, `common.CalcFeeAmount` success, signature
verification (black-box EdDSA) and the two L2-DB insertion calls. -/
structure APIEnv where
  getAccountAPI : Nat → Except String Account
  canSendToEthAddr : Nat → Nat → Except String Bool
  calcFeeOk : Int → Nat → Bool
  verifySig : PoolL2Tx → BJJComp → Bool
  addTxAPI : PoolL2Tx → Except String Unit
  addAtomicTxsAPI : List PoolL2Tx → Except String Unit

/-- The destination-reachability switch of `verifyPoolL2Tx`: transfers need
an existing recipient account with matching token, transfers to an eth
address need an account or an account-creation authorisation; every other
type (including `Exit`) passes by protocol. -/
def verifyDestination (env : APIEnv) (tx1 : PoolL2Tx) : Except String Unit :=
  match tx1.type with
  | .transfer =>
      match env.getAccountAPI tx1.toIdx with
      | .error e => .error e
      | .ok toAccount =>
          if tx1.tokenID ≠ toAccount.tokenID then
            .error "tx.TokenID different from toAccount.TokenID"
          else .ok ()
  | .transferToEthAddr =>
      match env.canSendToEthAddr tx1.toEthAddr tx1.tokenID with
      | .error e => .error e
      | .ok ok =>
          if ok = false then
            .error "destination eth addr has no account created nor authorization"
          else .ok ()
  | _ => .ok ()

/-- The extra sanity switch at the end of `verifyPoolL2Tx`: an `Exit` with
`Amount ≤ 0` is rejected with `ErrExitAmount0`. -/
def verifyExitAmount (tx1 : PoolL2Tx) : Except String Unit :=
  match tx1.type with
  | .exit => if tx1.amount ≤ 0 then .error ErrExitAmount0 else .ok ()
  | _ => .ok ()

/-- `API.verifyPoolL2Tx`: the per-transaction admission checks.  The local
copy of the tx is mutated by `NewPoolL2Tx` (type and TxID recomputed), so
every later check reads the mutated value `tx1`. -/
def verifyPoolL2Tx (env : APIEnv) (tx : PoolL2Tx) : Except String Unit :=
  match newPoolL2Tx tx with
  | .error e => .error e
  | .ok tx1 =>
      if env.calcFeeOk tx1.amount tx1.fee = false then
        .error "CalcFeeAmount error"
      else
        match env.getAccountAPI tx1.fromIdx with
        | .error e => .error e
        | .ok account =>
            if tx1.tokenID ≠ account.tokenID then
              .error "tx.TokenID different from account.TokenID"
            else if tx1.nonce < account.nonce then
              .error "tx.Nonce lower than account.Nonce"
            else if env.verifySig tx1 account.bjj = false then
              .error "wrong signature"
            else
              match verifyDestination env tx1 with
              | .error e => .error e
              | .ok _ => verifyExitAmount tx1

/-- The responses the two pool-submission handlers can produce. -/
inductive APIResp where
  | okTx (id : TxID)
  | okTxs (ids : List TxID)
  | badRequest (msg : String)
  | sqlError (msg : String)
deriving DecidableEq, Repr

/-- `API.postPoolTx`: single-tx submission, after JSON binding.  Any tx
carrying atomic-coupling data is rejected before validation. -/
def postPoolTx (env : APIEnv) (tx : PoolL2Tx) : APIResp :=
  if tx.rqOffset ≠ 0 ∨ tx.rqTxID ≠ EmptyTxID then
    .badRequest ErrNotAtomicTxsInPostPoolTx
  else
    match verifyPoolL2Tx env tx with
    | .error e => .badRequest e
    | .ok _ =>
        match env.addTxAPI tx with
        | .error e => .sqlError e
        | .ok _ => .okTx tx.txID

/-- The Rq-field copy step of `postAtomicPool` for the tx at position `i`.
The Go loop updates the slice in place, but the fields it reads from the
requested tx (`TxID`, `FromIdx`, ..., `Nonce`) are never written by the
loop, so reading from the original list is equivalent. -/
def setRqFieldsOne (txs : List PoolL2Tx) (i : Nat) (tx : PoolL2Tx) :
    Except String PoolL2Tx := do
  let rel ← requestOffset2RelativePosition tx.rqOffset
  let pos : Int := (i : Int) + rel
  if pos > (txs.length : Int) - 1 ∨ pos < 0 then
    throw ErrRqOffsetOutOfBounds
  else
    match txs.get? pos.toNat with
    | some requested =>
        if tx.rqTxID = requested.txID then
          pure { tx with
            rqFromIdx := requested.fromIdx
            rqToIdx := requested.toIdx
            rqToEthAddr := requested.toEthAddr
            rqToBJJ := requested.toBJJ
            rqTokenID := requested.tokenID
            rqAmount := some requested.amount
            rqFee := requested.fee
            rqNonce := requested.nonce }
        else pure tx
    | none => throw ErrRqOffsetOutOfBounds

/-- The full Rq-field copy loop of `postAtomicPool`. -/
def setRqFields (txs : List PoolL2Tx) : Except String (List PoolL2Tx) :=
  txs.enum.mapM (fun p => setRqFieldsOne txs p.1 p.2)

/-- `idToPos` of `isSingleAtomicGroup`: the Go code fills a map by ascending
index, so a duplicated TxID resolves to its last occurrence.  This
recursion returns exactly that: the last position in `txs` whose TxID is
`id`. -/
def idToPos : List PoolL2Tx → TxID → Option Nat
  | [], _ => none
  | tx :: rest, id =>
      match idToPos rest id with
      | some j => some (j + 1)
      | none => if tx.txID = id then some 0 else none

/-- The edge relation of the request graph: tx `i` points at the position
resolved from its `RqTxID`. -/
def txEdge (txs : List PoolL2Tx) (i j : Nat) : Bool :=
  match txs.get? i with
  | some tx => idToPos txs tx.rqTxID = some j
  | none => false

/-- One round of reachable-set expansion for a graph on `range n` with
adjacency `adj`. -/
def reachStep (n : Nat) (adj : Nat → Nat → Bool) (S : Finset Nat) : Finset Nat :=
  S ∪ (Finset.range n).filter (fun j => ∃ v ∈ S, adj v j = true)

/-- The set of nodes reachable from `i`: `n + 1` expansion rounds always hit
the fixpoint on a graph with `n` nodes. -/
def reachSet (n : Nat) (adj : Nat → Nat → Bool) (i : Nat) : Finset Nat :=
  (reachStep n adj)^[n + 1] {i}

/-- Decidable reachability between positions of the request graph. -/
def reachB (txs : List PoolL2Tx) (i j : Nat) : Bool :=
  decide (j ∈ reachSet txs.length (txEdge txs) i)

/-- One directed edge of a graph on `range n` with adjacency `adj`. -/
def GStep (n : Nat) (adj : Nat → Nat → Bool) (a b : Nat) : Prop :=
  b < n ∧ adj a b = true

/-- Declarative reachability in the request graph: the reflexive-transitive
closure of the edge relation `tx i points at the position of its RqTxID`. -/
def TxReach (txs : List PoolL2Tx) : Nat → Nat → Prop :=
  Relation.ReflTransGen (GStep txs.length (txEdge txs))

/-- The contract of `graph.StrongComponents(g)` having length 1: the graph
is nonempty and every node reaches every node (all nodes lie in one
strongly connected component). -/
def sccCountOne (txs : List PoolL2Tx) : Bool :=
  decide (1 ≤ txs.length) &&
    (List.range txs.length).all (fun i =>
      (List.range txs.length).all (fun j => reachB txs i j))

/-- `isSingleAtomicGroup` from `api/txspool.go`: reject if any tx has an
empty `RqTxID` or one that resolves to no tx of the list, otherwise check
that the request graph is a single strongly connected component. -/
def isSingleAtomicGroup (txs : List PoolL2Tx) : Bool :=
  if txs.all (fun tx =>
      !decide (tx.rqTxID = EmptyTxID) && (idToPos txs tx.rqTxID).isSome) then
    sccCountOne txs
  else false

/-- `API.postAtomicPool`: atomic submission, after JSON binding. -/
def postAtomicPool (env : APIEnv) (txs : List PoolL2Tx) : APIResp :=
  if txs.length ≤ 1 then .badRequest ErrSingleTxInAtomicEndpoint
  else
    match setRqFields txs with
    | .error e => .badRequest e
    | .ok txs1 =>
        match txs1.forM (verifyPoolL2Tx env) with
        | .error e => .badRequest e
        | .ok _ =>
            if isSingleAtomicGroup txs1 = false then
              .badRequest ErrTxsNotAtomic
            else
              match env.addAtomicTxsAPI txs1 with
              | .error e => .sqlError e
              | .ok _ => .okTxs (txs1.map (fun t => t.txID))

/-! ### `txselector` atomic-group validation (`part_002`) -/

/-- `common.AtomicGroup` restricted to the field the selector reads. -/
structure AtomicGroup where
  txs : List PoolL2Tx
deriving DecidableEq, Repr

/-- The body of the `isAtomicGroupValid` loop for index `i`: resolve the
requested position from `RqOffset` and compare the `Rq*` fields to the
requested tx.  `Amount` being modelled non-nil, the Go nil-pointer
comparison on the amount branch reduces to: `RqAmount` must be set and
equal. -/
def atomicTxOK (txs : List PoolL2Tx) (i : Nat) : Bool :=
  match txs.get? i with
  | none => false
  | some tx =>
      match requestOffset2RelativePosition tx.rqOffset with
      | .error _ => false
      | .ok rel =>
          let pos : Int := (i : Int) + rel
          if pos > (txs.length : Int) - 1 ∨ pos < 0 then false
          else
            match txs.get? pos.toNat with
            | none => false
            | some req =>
                decide (tx.rqFromIdx = req.fromIdx) &&
                decide (tx.rqToIdx = req.toIdx) &&
                decide (tx.rqToEthAddr = req.toEthAddr) &&
                decide (tx.rqToBJJ = req.toBJJ) &&
                decide (tx.rqTokenID = req.tokenID) &&
                decide (tx.rqFee = req.fee) &&
                decide (tx.rqNonce = req.nonce) &&
                (match tx.rqAmount with
                 | some a => decide (a = req.amount)
                 | none => false)

/-- `isAtomicGroupValid` from the `txselector` package. -/
def isAtomicGroupValid (g : AtomicGroup) : Bool :=
  (List.range g.txs.length).all (fun i => atomicTxOK g.txs i)

/-! ### `txselector` capacity checks and ordering (`part_002`) -/

/-- `txprocessor.Config`. -/
structure Config where
  nLevels : Nat
  maxTx : Nat
  maxL1Tx : Nat
  maxFeeTx : Nat
  chainID : Nat
deriving DecidableEq, Repr

/-- `canAddL2TxThatNeedsNewCoordL1Tx` from the `txselector` package. -/
def canAddL2TxThatNeedsNewCoordL1Tx
    (nAddedL1Txs nAddedL2txs : Nat) (selectionConfig : Config) : Bool :=
  decide (nAddedL1Txs < selectionConfig.maxL1Tx) &&
    decide (nAddedL1Txs + nAddedL2txs + 1 < selectionConfig.maxTx)

/-- `canAddL2Tx` from the `txselector` package. -/
def canAddL2Tx (nAddedL1Txs nAddedL2txs : Nat) (selectionConfig : Config) : Bool :=
  decide (nAddedL1Txs + nAddedL2txs < selectionConfig.maxTx)

/-- `calculateAtomicGroupsAverageFee`: the arithmetic mean of the absolute
fees of the txs carrying a given atomic-group id (exact in ℚ; the Go code
computes it in float64). -/
def calculateAtomicGroupsAverageFee (txs : List PoolL2Tx) (gid : Nat) : ℚ :=
  let members := txs.filter (fun tx => tx.atomicGroupID = gid)
  (members.map (fun tx => tx.absoluteFee)).sum / (members.length : ℚ)

/-- The comparator of the `sort.Slice` call on non-atomic txs:
`AbsoluteFee` descending, then `FromIdx` ascending, then `Nonce`
ascending. -/
def l2Less (a b : PoolL2Tx) : Bool :=
  if a.absoluteFee ≠ b.absoluteFee then decide (b.absoluteFee < a.absoluteFee)
  else if a.fromIdx ≠ b.fromIdx then decide (a.fromIdx < b.fromIdx)
  else decide (a.nonce < b.nonce)

/-- The non-strict order a list sorted with comparator `l2Less` satisfies. -/
def l2SortedLE (a b : PoolL2Tx) : Prop := l2Less b a = false

instance : DecidableRel l2SortedLE := fun a b =>
  inferInstanceAs (Decidable (l2Less b a = false))

/-- One step of collecting the distinct atomic-group ids: append the id of
an atomic tx not seen yet. -/
def agStep (acc : List Nat) (tx : PoolL2Tx) : List Nat :=
  if tx.atomicGroupID ≠ EmptyAtomicGroupID ∧ tx.atomicGroupID ∉ acc then
    acc ++ [tx.atomicGroupID]
  else acc

/-- The atomic-group ids of `txs` in first-encounter order (a deterministic
stand-in for the Go map whose iteration order is unspecified; the group
slices are then stably sorted by average fee, so only the relative order of
equal-fee groups is affected, which no claim depends on). -/
def atomicGroupIDs (txs : List PoolL2Tx) : List Nat :=
  txs.foldl agStep []

/-- The member txs of atomic group `gid`, in pool order (the Go code appends
them while scanning `l2Txs` left to right). -/
def groupTxs (txs : List PoolL2Tx) (gid : Nat) : List PoolL2Tx :=
  txs.filter (fun tx => tx.atomicGroupID = gid)

/-- The atomic groups of `txs` as a list of member lists. -/
def atomicGroupsList (txs : List PoolL2Tx) : List (List PoolL2Tx) :=
  (atomicGroupIDs txs).map (groupTxs txs)

/-- The non-atomic txs of the pool, in pool order. -/
def nonAtomicTxs (txs : List PoolL2Tx) : List PoolL2Tx :=
  txs.filter (fun tx => tx.atomicGroupID = EmptyAtomicGroupID)

/-- The average fee the merge loop reads for a group (`atomicGroupsFee`
indexed by the group id of the group's first tx). -/
def groupFee (fm : Nat → ℚ) (g : List PoolL2Tx) : ℚ :=
  match g.head? with
  | some tx => fm tx.atomicGroupID
  | none => 0

/-- The order the `sort.SliceStable` call on atomic groups establishes:
average fee descending. -/
def groupLE (fm : Nat → ℚ) (g h : List PoolL2Tx) : Prop :=
  groupFee fm h ≤ groupFee fm g

instance (fm : Nat → ℚ) : DecidableRel (groupLE fm) := fun g h =>
  inferInstanceAs (Decidable (groupFee fm h ≤ groupFee fm g))

/-- The final merge loop of `sortL2Txs`: emit the next non-atomic tx only
when its fee is strictly greater than the next group's average fee,
otherwise emit the whole group; then append whichever side remains. -/
def mergeTxs (fm : Nat → ℚ) : List PoolL2Tx → List (List PoolL2Tx) → List PoolL2Tx
  | [], gs => gs.flatten
  | x :: na, [] => x :: na
  | x :: na, g :: gs =>
      if groupFee fm g < x.absoluteFee then
        x :: mergeTxs fm na (g :: gs)
      else
        g ++ mergeTxs fm (x :: na) gs

/-- `sortL2Txs` from the `txselector` package: split into atomic groups and
non-atomic txs, sort the groups by average fee (descending, stable), sort
the non-atomic txs with `l2Less`, and merge. -/
def sortL2Txs (fm : Nat → ℚ) (txs : List PoolL2Tx) : List PoolL2Tx :=
  mergeTxs fm
    ((nonAtomicTxs txs).insertionSort l2SortedLE)
    ((atomicGroupsList txs).insertionSort (groupLE fm))

/-! ### The transaction processor's L1 path, modelled from the spec

The `txprocessor` package is not under `src/` (only its tests are), so the
effective-amount rules are modelled from spec section 4.2.1 and checked
against the expectations of `TestComputeEffectiveAmounts`. -/

/-- The balance of a pre-existing sender account (0 when the account does
not exist yet, e.g. for a create-account L1 tx). -/
def preBalance (st : ChainState) (idx : Nat) : Int :=
  match getAccount st idx with
  | some acc => acc.balance
  | none => 0

/-- The pair of effective amounts computed for an L1 tx. -/
structure EffAmounts where
  effectiveDepositAmount : Int
  effectiveAmount : Int
deriving DecidableEq, Repr

/-- Rule 2 of §4.2.1: a pre-existing sender's `EthAddr` must match
`FromEthAddr`. -/
def effRule2 (st : ChainState) (tx : L1Tx) : Bool :=
  match getAccount st tx.fromIdx with
  | some acc => decide (acc.ethAddr = tx.fromEthAddr)
  | none => true

/-- Rule 3: the tx `TokenID` must match the sender's and, when the
recipient account exists, the recipient's. -/
def effRule3 (st : ChainState) (tx : L1Tx) : Bool :=
  (match getAccount st tx.fromIdx with
   | some acc => decide (acc.tokenID = tx.tokenID)
   | none => true) &&
  (match getAccount st tx.toIdx with
   | some acc => decide (acc.tokenID = tx.tokenID)
   | none => true)

/-- Rule 4: pre-existing balance + `EffectiveDepositAmount` covers
`Amount`. -/
def effRule4 (st : ChainState) (tx : L1Tx) : Bool :=
  decide (tx.amount ≤ preBalance st tx.fromIdx + tx.depositAmount)

/-- Rule 5: a DepositTransfer / CreateAccountDepositTransfer needs an
existing recipient account for the `TokenID`. -/
def effRule5 (st : ChainState) (tx : L1Tx) : Bool :=
  if tx.type = .depositTransfer ∨ tx.type = .createAccountDepositTransfer then
    match getAccount st tx.toIdx with
    | some acc => decide (acc.tokenID = tx.tokenID)
    | none => false
  else true

/-- Modelled from the spec: `txprocessor.computeEffectiveAmounts`
(§4.2.1), whose code is not under `src/`.  `EffectiveDepositAmount :=
DepositAmount` unconditionally; any failed predicate among rules 2-5
zeroes `EffectiveAmount`.  The rules only constrain user-origin txs: the
raw amounts of L1-coordinator txs are applied directly.  Checked against
the expectations of `TestComputeEffectiveAmounts` (`part_001`). -/
def computeEffectiveAmounts (st : ChainState) (tx : L1Tx) : EffAmounts :=
  if tx.userOrigin = false then
    ⟨tx.depositAmount, tx.amount⟩
  else if effRule2 st tx && effRule3 st tx && effRule4 st tx && effRule5 st tx then
    ⟨tx.depositAmount, tx.amount⟩
  else
    ⟨tx.depositAmount, 0⟩

/-- Modelled from the spec: the next free user account index (§3: indices
are allocated from a monotone counter starting at the user threshold). -/
def nextIdx (st : ChainState) : Nat :=
  max IdxUserThreshold
    (st.accounts.foldl (fun acc p => max acc (p.1 + 1)) 0)

/-- Write an account back into the association list. -/
def putAccount (st : ChainState) (idx : Nat) (acc : Account) : ChainState :=
  ⟨(idx, acc) :: st.accounts.filter (fun p => p.1 ≠ idx)⟩

/-- Modelled from the spec: the L1 leg of `txprocessor.ProcessL1Tx`
(§4.2.1): compute the effective amounts, record them on the tx, then mutate
balances — the deposit lands on the sender (created at the next free index
when `FromIdx = 0`) and the effective transfer amount moves to the
recipient when it is a user account. -/
def processL1Tx (st : ChainState) (tx : L1Tx) : ChainState × L1Tx :=
  let eff := computeEffectiveAmounts st tx
  let tx1 := { tx with
    effectiveAmount := some eff.effectiveAmount
    effectiveDepositAmount := some eff.effectiveDepositAmount }
  let st1 :=
    if tx.fromIdx = 0 then
      putAccount st (nextIdx st)
        ⟨tx.tokenID, 0, eff.effectiveDepositAmount - eff.effectiveAmount,
          tx.fromEthAddr, tx.fromBJJ⟩
    else
      match getAccount st tx.fromIdx with
      | some acc =>
          putAccount st tx.fromIdx
            { acc with balance :=
                acc.balance + eff.effectiveDepositAmount - eff.effectiveAmount }
      | none => st
  let st2 :=
    if IdxUserThreshold ≤ tx.toIdx then
      match getAccount st1 tx.toIdx with
      | some acc =>
          putAccount st1 tx.toIdx
            { acc with balance := acc.balance + eff.effectiveAmount }
      | none => st1
    else st1
  (st2, tx1)

/-- Thread the state through a list of L1 txs, returning the processed txs
(the Go code processes `&l1UserTxs[i]` in place). -/
def processL1Txs (st : ChainState) : List L1Tx → ChainState × List L1Tx
  | [] => (st, [])
  | tx :: rest =>
      let (st1, tx1) := processL1Tx st tx
      let (st2, rest1) := processL1Txs st1 rest
      (st2, tx1 :: rest1)

/-! ### The selection loop, modelled from the spec

The admission loop of `getL1L2TxSelection` runs in a producer/consumer
verifier whose code is not under `src/`; per spec §4.3.3 each admission of
an L2 tx is guarded by the source capacity checks `canAddL2Tx` /
`canAddL2TxThatNeedsNewCoordL1Tx` (adding one synthesised L1-coordinator tx
in the latter case).  Each admission attempt is abstracted by whether the
tx needs a new coordinator L1 tx; an arbitrary attempt list covers every
schedule of the iterative loop, including its restarts. -/

/-- Counts of txs added by the selection loop so far. -/
structure SelCount where
  nL1Coord : Nat
  nL2 : Nat
deriving DecidableEq, Repr

/-- One admission attempt of the selection loop (spec §4.3.3 steps 2-3):
guarded by the source capacity checks, where `nAddedL1Txs` counts the
L1-user txs plus the synthesised L1-coordinator txs. -/
def selectStep (cfg : Config) (nL1User : Nat) (c : SelCount)
    (needsCoordL1 : Bool) : SelCount :=
  if needsCoordL1 then
    if canAddL2TxThatNeedsNewCoordL1Tx (nL1User + c.nL1Coord) c.nL2 cfg then
      ⟨c.nL1Coord + 1, c.nL2 + 1⟩
    else c
  else
    if canAddL2Tx (nL1User + c.nL1Coord) c.nL2 cfg then
      ⟨c.nL1Coord, c.nL2 + 1⟩
    else c

/-- The output of `GetL1L2TxSelection` reduced to what the capacity and
frame claims observe: the returned L1-user txs and the numbers of
L1-coordinator and selected L2 txs. -/
structure SelectionOut where
  l1UserTxs : List L1Tx
  nL1Coord : Nat
  nL2 : Nat
deriving DecidableEq, Repr

/-- Modelled from the spec: `TxSelector.GetL1L2TxSelection` (§4.3.3 /
`getL1L2TxSelection` in `part_002`): process the mandatory L1-user txs
through the processor's L1 path, then run the guarded admission loop over
the pool attempts, and return the L1-user txs together with the selection
counts. -/
def getL1L2TxSelection (cfg : Config) (st : ChainState)
    (l1UserTxs : List L1Tx) (poolAttempts : List Bool) : SelectionOut :=
  let processed := processL1Txs st l1UserTxs
  let counts := poolAttempts.foldl (selectStep cfg l1UserTxs.length) ⟨0, 0⟩
  ⟨processed.2, counts.nL1Coord, counts.nL2⟩

/-! ### Concrete fixtures used by witnesses and counterexamples -/

/-- A pool L2 tx with neutral fields, specialised by record updates below. -/
def baseTx : PoolL2Tx where
  txID := EmptyTxID
  fromIdx := 256
  toIdx := 1
  toEthAddr := 0
  toBJJ := EmptyBJJComp
  tokenID := 0
  amount := 10
  amountF16 := 0
  fee := 0
  nonce := 0
  type := .unset
  rqFromIdx := 0
  rqToIdx := 0
  rqToEthAddr := 0
  rqToBJJ := EmptyBJJComp
  rqTokenID := 0
  rqAmount := none
  rqFee := 0
  rqNonce := 0
  rqOffset := 0
  rqTxID := EmptyTxID
  atomicGroupID := 0
  absoluteFee := 0

/-- A user-origin L1 deposit-transfer whose effective amounts are unset. -/
def l1a : L1Tx where
  fromIdx := 256
  toIdx := 257
  tokenID := 0
  amount := 0
  depositAmount := 5
  fromEthAddr := 10
  fromBJJ := EmptyBJJComp
  type := .deposit
  userOrigin := true
  position := 0
  effectiveAmount := none
  effectiveDepositAmount := none

/-- A selection config with `MaxL1Tx = 1`. -/
def cfg1 : Config := ⟨32, 10, 1, 8, 0⟩

/-- The empty account state. -/
def stEmpty : ChainState := ⟨[]⟩

/-- The state of the `TestComputeEffectiveAmounts` shortfall case: account
256 holds balance 10 of token 0 for eth address 10, account 257 holds token
0. -/
def st3 : ChainState :=
  ⟨[(256, ⟨0, 0, 10, 10, EmptyBJJComp⟩), (257, ⟨0, 0, 10, 11, EmptyBJJComp⟩)]⟩

/-- The `TestComputeEffectiveAmounts` DepositTransfer with `Amount = 20`,
`DepositAmount = 8` against balance 10: the deposit lands, the transfer is
zeroed. -/
def tx3 : L1Tx where
  fromIdx := 256
  toIdx := 257
  tokenID := 0
  amount := 20
  depositAmount := 8
  fromEthAddr := 10
  fromBJJ := EmptyBJJComp
  type := .depositTransfer
  userOrigin := true
  position := 0
  effectiveAmount := none
  effectiveDepositAmount := none

/-- An L1 tx erased to its pre-processing fields: the post-execution
effective amounts are reset to nil. -/
def eraseEff (tx : L1Tx) : L1Tx :=
  { tx with effectiveAmount := none, effectiveDepositAmount := none }

/-- An API environment in which every black-box check succeeds and no
account exists. -/
def env0 : APIEnv where
  getAccountAPI := fun _ => .error "account not found"
  canSendToEthAddr := fun _ _ => .ok false
  calcFeeOk := fun _ _ => true
  verifySig := fun _ _ => true
  addTxAPI := fun _ => .ok ()
  addAtomicTxsAPI := fun _ => .ok ()

/-- The account held by `env1` at index 256. -/
def acc1 : Account := ⟨0, 0, 100, 10, EmptyBJJComp⟩

/-- An API environment holding one account (index 256, token 0) whose
black-box fee and signature checks succeed. -/
def env1 : APIEnv where
  getAccountAPI := fun i => if i = 256 then .ok acc1 else .error "account not found"
  canSendToEthAddr := fun _ _ => .ok false
  calcFeeOk := fun _ _ => true
  verifySig := fun _ _ => true
  addTxAPI := fun _ => .ok ()
  addAtomicTxsAPI := fun _ => .ok ()

/-- An exit (ToIdx = 1) with zero amount. -/
def exitTx0 : PoolL2Tx := { baseTx with toIdx := 1, amount := 0 }

/-- An exit (ToIdx = 1) with positive amount. -/
def exitTx : PoolL2Tx := { baseTx with toIdx := 1, amount := 10 }

/-- `exitTx` after `NewPoolL2Tx` recomputed its type and TxID. -/
def exitTx1 : PoolL2Tx :=
  { exitTx with type := .exit, txID := l2TxIDBytes 256 0 }

/-- A transfer carrying its correctly recomputed TxID. -/
def c7tx : PoolL2Tx := { baseTx with toIdx := 256, txID := l2TxIDBytes 256 0 }

/-- `c7tx` after `SetType`. -/
def c7tx1 : PoolL2Tx := { c7tx with type := .transfer }

/-- `c7tx` after `SetID`. -/
def c7tx2 : PoolL2Tx := { c7tx with txID := l2TxIDBytes 256 0 }

/-- A non-atomic tx with absolute fee 1. -/
def c4x : PoolL2Tx := { baseTx with absoluteFee := 1, nonce := 3 }

/-- An atomic tx (group 1) with absolute fee 1, so its singleton group's
average fee ties with `c4x`. -/
def c4a : PoolL2Tx := { baseTx with atomicGroupID := 1, absoluteFee := 1 }

/-- A pool holding the non-atomic `c4x` before the atomic `c4a`. -/
def c4txs : List PoolL2Tx := [c4x, c4a]

/-- A pool tx with every compressed-data field populated. -/
def txc6 : PoolL2Tx :=
  { baseTx with
    toIdx := 257
    fromIdx := 256
    nonce := 5
    fee := 126
    tokenID := 1
    amountF16 := 17066
    toBJJ := ⟨true, 7⟩ }

/-! ## Theorems -/

theorem beBytes_length (w v : Nat) : (beBytes w v).length = w := by
  induction w generalizing v with
  | zero => rfl
  | succ w ih => simp [beBytes, ih]

theorem beToNat_append (a b : List Nat) :
    beToNat (a ++ b) = beToNat a * 256 ^ b.length + beToNat b := by
  induction b using List.reverseRecOn with
  | nil => simp [beToNat]
  | append_singleton b x ih =>
      simp only [beToNat, List.foldl_append, List.foldl_cons, List.foldl_nil] at *
      rw [ih]
      simp only [List.length_append, List.length_cons, List.length_nil]
      ring

theorem beToNat_beBytes (w v : Nat) (h : v < 256 ^ w) :
    beToNat (beBytes w v) = v := by
  induction w generalizing v with
  | zero =>
      simp [beBytes, beToNat]
      omega
  | succ w ih =>
      have hdiv : v / 256 < 256 ^ w := by
        rw [Nat.div_lt_iff_lt_mul (by norm_num)]
        calc v < 256 ^ (w + 1) := h
        _ = 256 ^ w * 256 := by ring
      rw [beBytes, beToNat_append, ih (v / 256) hdiv]
      simp [beToNat]
      omega

/-! ### C5: request-offset mapping -/

/-- C5: `requestOffset2RelativePosition` maps offsets 1,2,3 to +1,+2,+3 and
4,5,6,7 to −4,−3,−2,−1, errors on offset 0 and on every offset above 7, and
consequently `isAtomicGroupValid` rejects any group containing a tx with
`RqOffset = 0`. -/
theorem c5_requestOffset_mapping (g : AtomicGroup) (tx : PoolL2Tx)
    (hmem : tx ∈ g.txs) (h0 : tx.rqOffset = 0) :
    requestOffset2RelativePosition 1 = .ok 1 ∧
    requestOffset2RelativePosition 2 = .ok 2 ∧
    requestOffset2RelativePosition 3 = .ok 3 ∧
    requestOffset2RelativePosition 4 = .ok (-4) ∧
    requestOffset2RelativePosition 5 = .ok (-3) ∧
    requestOffset2RelativePosition 6 = .ok (-2) ∧
    requestOffset2RelativePosition 7 = .ok (-1) ∧
    (requestOffset2RelativePosition 0).isOk = false ∧
    (∀ m : Nat, 7 < m → (requestOffset2RelativePosition m).isOk = false) ∧
    isAtomicGroupValid g = false := by
  refine ⟨rfl, rfl, rfl, rfl, rfl, rfl, rfl, rfl, ?_, ?_⟩
  · intro m hm
    obtain ⟨k, rfl⟩ : ∃ k, m = k + 8 := ⟨m - 8, by omega⟩
    rfl
  · obtain ⟨i, hget⟩ := List.mem_iff_get.mp hmem
    have hget2 : g.txs.get? i.1 = some tx := by
      rw [List.get?_eq_get i.2, hget]
    rw [isAtomicGroupValid]
    by_contra hall
    rw [Bool.not_eq_false, List.all_eq_true] at hall
    have := hall i.1 (List.mem_range.mpr i.2)
    rw [atomicTxOK, hget2] at this
    simp [h0, requestOffset2RelativePosition] at this

/-- Witness for C5 at a singleton group whose tx has `RqOffset = 0`. -/
theorem c5_requestOffset_mapping_witness :
    isAtomicGroupValid ⟨[baseTx]⟩ = false ∧
    (requestOffset2RelativePosition 0).isOk = false := by
  have h := c5_requestOffset_mapping ⟨[baseTx]⟩ baseTx (List.mem_singleton_self baseTx) rfl
  exact ⟨h.2.2.2.2.2.2.2.2.2, h.2.2.2.2.2.2.2.1⟩

/-! ### C3: effective amounts of user-origin L1 txs -/

/-- C3: for every user-origin L1 tx the computed `EffectiveDepositAmount`
equals `DepositAmount`, and a shortfall of the pre-existing balance plus
`EffectiveDepositAmount` against `Amount` forces `EffectiveAmount = 0`
(the deposit still lands while the transfer part is zeroed). -/
theorem c3_effective_amounts (st : ChainState) (tx : L1Tx)
    (huser : tx.userOrigin = true) :
    (computeEffectiveAmounts st tx).effectiveDepositAmount = tx.depositAmount ∧
    (preBalance st tx.fromIdx +
        (computeEffectiveAmounts st tx).effectiveDepositAmount < tx.amount →
      (computeEffectiveAmounts st tx).effectiveAmount = 0) := by
  have hdep : (computeEffectiveAmounts st tx).effectiveDepositAmount
      = tx.depositAmount := by
    rw [computeEffectiveAmounts]
    split
    · rfl
    · split <;> rfl
  refine ⟨hdep, ?_⟩
  intro hlt
  rw [hdep] at hlt
  rw [computeEffectiveAmounts]
  rw [if_neg (by rw [huser] ; exact fun h => Bool.true_eq_false.mp h)]
  split
  next heq =>
    simp only [Bool.and_eq_true] at heq
    have h4 := heq.1.2
    rw [effRule4, decide_eq_true_iff] at h4
    omega
  next => rfl

/-- Witness for C3 at the `TestComputeEffectiveAmounts` DepositTransfer
shortfall vector: balance 10, deposit 8, amount 20 gives effective amounts
(8, 0). -/
theorem c3_effective_amounts_witness :
    tx3.userOrigin = true ∧
    ((computeEffectiveAmounts st3 tx3).effectiveDepositAmount = tx3.depositAmount ∧
      (preBalance st3 tx3.fromIdx +
          (computeEffectiveAmounts st3 tx3).effectiveDepositAmount < tx3.amount →
        (computeEffectiveAmounts st3 tx3).effectiveAmount = 0)) ∧
    computeEffectiveAmounts st3 tx3 = ⟨8, 0⟩ :=
  ⟨rfl, c3_effective_amounts st3 tx3 rfl, by decide⟩

/-! ### C1: capacity bounds of the selection -/

/-- Processing the L1-user txs preserves the length of the list. -/
theorem processL1Txs_length (st : ChainState) (txs : List L1Tx) :
    (processL1Txs st txs).2.length = txs.length := by
  induction txs generalizing st with
  | nil => rfl
  | cons tx rest ih => simp [processL1Txs, ih]

/-- One guarded admission attempt preserves both capacity bounds. -/
theorem selectStep_bounds (cfg : Config) (nL1User : Nat) (c : SelCount)
    (b : Bool)
    (h1 : nL1User + c.nL1Coord ≤ cfg.maxL1Tx)
    (h2 : nL1User + c.nL1Coord + c.nL2 ≤ cfg.maxTx) :
    nL1User + (selectStep cfg nL1User c b).nL1Coord ≤ cfg.maxL1Tx ∧
    nL1User + (selectStep cfg nL1User c b).nL1Coord +
        (selectStep cfg nL1User c b).nL2 ≤ cfg.maxTx := by
  rw [selectStep]
  split
  · split
    next hcan =>
      rw [canAddL2TxThatNeedsNewCoordL1Tx, Bool.and_eq_true,
        decide_eq_true_iff, decide_eq_true_iff] at hcan
      refine ⟨?_, ?_⟩
      · show nL1User + (c.nL1Coord + 1) ≤ cfg.maxL1Tx
        omega
      · show nL1User + (c.nL1Coord + 1) + (c.nL2 + 1) ≤ cfg.maxTx
        omega
    next => exact ⟨h1, h2⟩
  · split
    next hcan =>
      rw [canAddL2Tx, decide_eq_true_iff] at hcan
      refine ⟨?_, ?_⟩
      · show nL1User + c.nL1Coord ≤ cfg.maxL1Tx
        omega
      · show nL1User + c.nL1Coord + (c.nL2 + 1) ≤ cfg.maxTx
        omega
    next => exact ⟨h1, h2⟩

/-- The invariant of the admission loop: the capacity bounds, preserved by
every guarded admission attempt. -/
theorem selectStep_foldl_invariant (cfg : Config) (nL1User : Nat)
    (attempts : List Bool) (c : SelCount)
    (h1 : nL1User + c.nL1Coord ≤ cfg.maxL1Tx)
    (h2 : nL1User + c.nL1Coord + c.nL2 ≤ cfg.maxTx) :
    nL1User + (attempts.foldl (selectStep cfg nL1User) c).nL1Coord ≤ cfg.maxL1Tx ∧
    nL1User + (attempts.foldl (selectStep cfg nL1User) c).nL1Coord +
        (attempts.foldl (selectStep cfg nL1User) c).nL2 ≤ cfg.maxTx := by
  induction attempts generalizing c with
  | nil => exact ⟨h1, h2⟩
  | cons b rest ih =>
      simp only [List.foldl_cons]
      obtain ⟨h1a, h2a⟩ := selectStep_bounds cfg nL1User c b h1 h2
      exact ih (selectStep cfg nL1User c b) h1a h2a

/-- C1 (amended): whenever the mandatory L1-user txs respect the batch
capacities on their own — which `GetL1L2TxSelection` never checks — the
selection output satisfies both bounds: L1-user + L1-coordinator ≤ MaxL1Tx
and L1-user + L1-coordinator + L2 ≤ MaxTx. -/
theorem c1_capacity (cfg : Config) (st : ChainState) (l1UserTxs : List L1Tx)
    (poolAttempts : List Bool)
    (h1 : l1UserTxs.length ≤ cfg.maxL1Tx)
    (h2 : l1UserTxs.length ≤ cfg.maxTx) :
    (getL1L2TxSelection cfg st l1UserTxs poolAttempts).l1UserTxs.length +
        (getL1L2TxSelection cfg st l1UserTxs poolAttempts).nL1Coord ≤ cfg.maxL1Tx ∧
    (getL1L2TxSelection cfg st l1UserTxs poolAttempts).l1UserTxs.length +
        (getL1L2TxSelection cfg st l1UserTxs poolAttempts).nL1Coord +
        (getL1L2TxSelection cfg st l1UserTxs poolAttempts).nL2 ≤ cfg.maxTx := by
  have hlen := processL1Txs_length st l1UserTxs
  have hinv := selectStep_foldl_invariant cfg l1UserTxs.length poolAttempts ⟨0, 0⟩
    (by simpa using h1) (by simpa using h2)
  simpa [getL1L2TxSelection, hlen] using hinv

/-- Witness for C1 at a two-tx L1 queue within capacity and one admission
attempt needing a coordinator tx. -/
theorem c1_capacity_witness :
    (getL1L2TxSelection ⟨32, 10, 4, 8, 0⟩ stEmpty [l1a, l1a] [true]).l1UserTxs.length +
        (getL1L2TxSelection ⟨32, 10, 4, 8, 0⟩ stEmpty [l1a, l1a] [true]).nL1Coord
        ≤ (4 : Nat) ∧
    (getL1L2TxSelection ⟨32, 10, 4, 8, 0⟩ stEmpty [l1a, l1a] [true]).l1UserTxs.length +
        (getL1L2TxSelection ⟨32, 10, 4, 8, 0⟩ stEmpty [l1a, l1a] [true]).nL1Coord +
        (getL1L2TxSelection ⟨32, 10, 4, 8, 0⟩ stEmpty [l1a, l1a] [true]).nL2
        ≤ (10 : Nat) :=
  c1_capacity ⟨32, 10, 4, 8, 0⟩ stEmpty [l1a, l1a] [true] (by decide) (by decide)

/-- C1 counterexample: the claim as stated fails when the caller hands the
selection more L1-user txs than `MaxL1Tx`; the call succeeds and returns
them all, exceeding the L1 capacity bound. -/
theorem c1_capacity_counterexample :
    ¬ ((getL1L2TxSelection cfg1 stEmpty [l1a, l1a] []).l1UserTxs.length +
        (getL1L2TxSelection cfg1 stEmpty [l1a, l1a] []).nL1Coord ≤ cfg1.maxL1Tx) := by
  decide

/-! ### C10: the returned L1-user txs -/

/-- C10 (amended): the selection returns the L1-user txs it was given, same
length, order and fields, except that L1 processing fills the two
post-execution effective-amount fields of every returned tx. -/
theorem c10_l1user_frame (cfg : Config) (st : ChainState)
    (l1UserTxs : List L1Tx) (poolAttempts : List Bool) :
    ((getL1L2TxSelection cfg st l1UserTxs poolAttempts).l1UserTxs).map eraseEff =
      l1UserTxs.map eraseEff ∧
    ∀ tx ∈ (getL1L2TxSelection cfg st l1UserTxs poolAttempts).l1UserTxs,
      tx.effectiveAmount.isSome ∧ tx.effectiveDepositAmount.isSome := by
  rw [getL1L2TxSelection]
  simp only
  induction l1UserTxs generalizing st with
  | nil => exact ⟨rfl, by simp [processL1Txs]⟩
  | cons tx rest ih =>
      obtain ⟨ih1, ih2⟩ := ih ((processL1Tx st tx).1)
      constructor
      · simp only [processL1Txs, List.map_cons, ih1]
        have : eraseEff (processL1Tx st tx).2 = eraseEff tx := by
          cases tx
          rfl
        rw [this]
      · intro t ht
        simp only [processL1Txs, List.mem_cons] at ht
        rcases ht with rfl | ht
        · cases tx
          exact ⟨rfl, rfl⟩
        · exact ih2 t ht

/-- Witness for C10: the frame equation evaluated at the singleton queue. -/
theorem c10_l1user_frame_witness :
    ((getL1L2TxSelection cfg1 stEmpty [l1a] []).l1UserTxs).map eraseEff =
      [l1a].map eraseEff ∧
    (getL1L2TxSelection cfg1 stEmpty [l1a] []).l1UserTxs =
      [{ l1a with effectiveAmount := some 0, effectiveDepositAmount := some 5 }] :=
  ⟨(c10_l1user_frame cfg1 stEmpty [l1a] []).1, by decide⟩

/-- C10 counterexample: the returned list is not the input list unchanged
in content: processing the L1 txs fills their effective amounts in place,
so a queue whose txs carry nil effective amounts comes back different. -/
theorem c10_l1user_frame_counterexample :
    (getL1L2TxSelection cfg1 stEmpty [l1a] []).l1UserTxs ≠ [l1a] := by
  decide

/-! ### C9: atomic txs are rejected by the single-tx endpoint -/

/-- C9: `postPoolTx` rejects, before any other validation and whatever the
collaborators would answer, every tx whose `RqOffset` is non-zero or whose
`RqTxID` is non-empty; and `postAtomicPool` rejects every submission of
fewer than two txs. -/
theorem c9_atomic_endpoints (env : APIEnv) (tx : PoolL2Tx)
    (txs : List PoolL2Tx) :
    (tx.rqOffset ≠ 0 ∨ tx.rqTxID ≠ EmptyTxID →
      postPoolTx env tx = .badRequest ErrNotAtomicTxsInPostPoolTx) ∧
    (txs.length ≤ 1 →
      postAtomicPool env txs = .badRequest ErrSingleTxInAtomicEndpoint) := by
  constructor
  · intro h
    rw [postPoolTx, if_pos h]
  · intro h
    rw [postAtomicPool, if_pos h]

/-- Witness for C9: a tx with `RqOffset = 1` bounces off the single-tx
endpoint, a singleton list bounces off the atomic endpoint, in an
environment where every other check would succeed. -/
theorem c9_atomic_endpoints_witness :
    postPoolTx env0 { baseTx with rqOffset := 1 } =
      .badRequest ErrNotAtomicTxsInPostPoolTx ∧
    postAtomicPool env0 [baseTx] = .badRequest ErrSingleTxInAtomicEndpoint :=
  ⟨(c9_atomic_endpoints env0 { baseTx with rqOffset := 1 } [baseTx]).1
      (Or.inl (by decide)),
   (c9_atomic_endpoints env0 baseTx [baseTx]).2 (by decide)⟩

/-! ### C8: pool admission of zero-amount exits -/

/-- `SetType` classifies `ToIdx = 1` as an exit. -/
theorem setType_toIdx_one (tx : PoolL2Tx) (h : tx.toIdx = 1) :
    setType tx = .ok { tx with type := .exit } := by
  rw [setType, if_neg (by simp [h, IdxUserThreshold]), if_pos h]

/-- Anatomy of a successful `NewPoolL2Tx`: the result is the `SetType`
output with its TxID recomputed. -/
theorem newPoolL2Tx_ok_structure (tx tx2 : PoolL2Tx)
    (h : newPoolL2Tx tx = .ok tx2) :
    ∃ tx1, setType tx = .ok tx1 ∧
      tx2 = { tx1 with txID := l2TxIDBytes tx1.fromIdx tx1.nonce } := by
  rw [newPoolL2Tx] at h
  split at h
  · exact absurd h (by simp)
  next tx1 hst =>
    split at h
    · exact absurd h (by simp)
    · split at h
      · exact absurd h (by simp)
      next tx2b heq =>
        split at h
        · exact absurd h (by simp)
        · injection h with h2
          subst h2
          rw [setID] at heq
          split at heq
          · split at heq
            · injection heq with h3
              exact ⟨tx1, hst, h3.symm⟩
            · exact absurd heq (by simp)
          · exact absurd heq (by simp)

/-- A successful `NewPoolL2Tx` of a tx with `ToIdx = 1` yields an exit with
the same amount. -/
theorem newPoolL2Tx_ok_exit (tx tx2 : PoolL2Tx) (hto : tx.toIdx = 1)
    (h : newPoolL2Tx tx = .ok tx2) :
    tx2.type = .exit ∧ tx2.amount = tx.amount := by
  obtain ⟨tx1, hst, rfl⟩ := newPoolL2Tx_ok_structure tx tx2 h
  rw [setType_toIdx_one tx hto] at hst
  injection hst with h1
  subst h1
  exact ⟨rfl, rfl⟩

/-- C8: pool admission fails for an `Exit` (a tx with `ToIdx = 1`) whose
amount is zero, whatever the collaborators answer; and for a positive
amount the exit-amount check passes: whenever every other check succeeds,
`verifyPoolL2Tx` returns without error. -/
theorem c8_exit_zero_amount (env : APIEnv) (tx : PoolL2Tx)
    (hto : tx.toIdx = 1) :
    (tx.amount = 0 → (verifyPoolL2Tx env tx).isOk = false) ∧
    (∀ tx1 acc, 0 < tx.amount →
      newPoolL2Tx tx = .ok tx1 →
      env.calcFeeOk tx1.amount tx1.fee = true →
      env.getAccountAPI tx1.fromIdx = .ok acc →
      tx1.tokenID = acc.tokenID →
      acc.nonce ≤ tx1.nonce →
      env.verifySig tx1 acc.bjj = true →
      verifyPoolL2Tx env tx = .ok ()) := by
  constructor
  · intro hz
    rw [verifyPoolL2Tx]
    split
    · rfl
    next tx1 hnew =>
      obtain ⟨hty, hamt⟩ := newPoolL2Tx_ok_exit tx tx1 hto hnew
      split
      · rfl
      · split
        · rfl
        next account hacc =>
          split
          · rfl
          · split
            · rfl
            · split
              · rfl
              · split
                · rfl
                · rw [verifyExitAmount]
                  rw [show tx1.type = .exit from hty]
                  rw [if_pos (by omega)]
                  rfl
  · intro tx1 acc hpos hnew hfee hacc htok hnonce hsig
    obtain ⟨hty, hamt⟩ := newPoolL2Tx_ok_exit tx tx1 hto hnew
    have hnlt : ¬ tx1.nonce < acc.nonce := Nat.not_lt.mpr hnonce
    have hample : ¬ tx1.amount ≤ 0 := by omega
    simp [verifyPoolL2Tx, hnew, hfee, hacc, htok, hnlt, hsig,
      verifyDestination, verifyExitAmount, hty, hample]

/-- Witness for C8: in `env1` a zero-amount exit from account 256 is
rejected while the same exit with amount 10 is accepted. -/
theorem c8_exit_zero_amount_witness :
    (verifyPoolL2Tx env1 exitTx0).isOk = false ∧
    verifyPoolL2Tx env1 exitTx = .ok () :=
  ⟨(c8_exit_zero_amount env1 exitTx0 rfl).1 rfl,
   (c8_exit_zero_amount env1 exitTx rfl).2 exitTx1 acc1 (by decide)
     rfl rfl rfl rfl (by decide) rfl⟩

/-! ### C7: the L2 TxID and its recomputation -/

/-- `SetType` only writes the type: every other field survives. -/
theorem setType_ok_fields (tx tx1 : PoolL2Tx) (h : setType tx = .ok tx1) :
    tx1.txID = tx.txID ∧ tx1.fromIdx = tx.fromIdx ∧ tx1.nonce = tx.nonce := by
  rw [setType] at h
  split at h
  · injection h with h1
    subst h1
    exact ⟨rfl, rfl, rfl⟩
  · split at h
    · injection h with h1
      subst h1
      exact ⟨rfl, rfl, rfl⟩
    · split at h
      · split at h
        · injection h with h1
          subst h1
          exact ⟨rfl, rfl, rfl⟩
        · split at h
          · injection h with h1
            subst h1
            exact ⟨rfl, rfl, rfl⟩
          · injection h with h1
            subst h1
            exact ⟨rfl, rfl, rfl⟩
      · exact absurd h (by simp)

/-- C7: the TxID `SetID` writes is the L2 prefix byte followed by the six
`FromIdx` bytes and the five `Nonce` bytes, recomputing it is idempotent,
and — whenever the type stage passes — `NewPoolL2Tx` accepts a tx carrying
a pre-set non-empty TxID exactly when it equals the recomputed one. -/
theorem c7_txid (tx tx1 : PoolL2Tx)
    (hty : setType tx = .ok tx1)
    (hmatch : tx.type = .unset ∨ tx.type = tx1.type)
    (hf : tx.fromIdx < 2 ^ 48) (hn : tx.nonce < 2 ^ 40)
    (hne : tx.txID ≠ EmptyTxID) :
    ((newPoolL2Tx tx).isOk = true ↔
      tx.txID = l2TxIDBytes tx.fromIdx tx.nonce) ∧
    (∀ tx2, setID tx = .ok tx2 →
      tx2.txID = TxIDPrefixL2Tx :: (beBytes 6 tx.fromIdx ++ beBytes 5 tx.nonce) ∧
      setID tx2 = .ok tx2) := by
  obtain ⟨hID, hFrom, hNonce⟩ := setType_ok_fields tx tx1 hty
  constructor
  · have hf2 : tx.fromIdx < 281474976710656 := hf
    have hn2 : tx.nonce < 1099511627776 := hn
    rcases hmatch with hmt | hmt <;>
      (by_cases heq : tx.txID = l2TxIDBytes tx.fromIdx tx.nonce <;>
        simp [newPoolL2Tx, hty, hmt, setID, hf2, hn2, hID, hFrom, hNonce, hne,
          heq, Except.isOk, Except.toBool])
  · intro tx2 hsid
    rw [setID, if_pos hf, if_pos hn] at hsid
    injection hsid with h2
    subst h2
    refine ⟨rfl, ?_⟩
    simp [setID, show tx.fromIdx < 281474976710656 from hf,
      show tx.nonce < 1099511627776 from hn]

set_option maxRecDepth 8000 in
/-- Witness for C7: a transfer whose stored TxID matches the recomputed one
is accepted, and recomputation is idempotent. -/
theorem c7_txid_witness :
    (newPoolL2Tx c7tx).isOk = true ∧ setID c7tx2 = .ok c7tx2 := by
  have h := c7_txid c7tx c7tx1 rfl (Or.inl rfl) (by decide) (by decide) (by decide)
  exact ⟨h.1.mpr rfl, (h.2 c7tx2 rfl).2⟩

/-! ### C6: the TxCompressedData layout -/

/-- Every byte emitted by `beBytes` is below 256. -/
theorem beBytes_mem_lt (w v : Nat) : ∀ b ∈ beBytes w v, b < 256 := by
  induction w generalizing v with
  | zero => simp [beBytes]
  | succ w ih =>
      intro b hb
      rw [beBytes] at hb
      rcases List.mem_append.mp hb with h | h
      · exact ih (v / 256) b h
      · rw [List.mem_singleton] at h
        subst h
        exact Nat.mod_lt v (by norm_num)

set_option maxRecDepth 8000 in
/-- C6: for in-range fields, `TxCompressedData` succeeds and returns the
integer whose 31-byte big-endian representation is
`toBJJSign ∥ fee ∥ nonce ∥ tokenID ∥ amountFloat16 ∥ toIdx ∥ fromIdx ∥
chainID ∥ sigConst` with the specified widths — equivalently, the weighted
sum below — and the assembled array really is 31 bytes. -/
theorem c6_compressed_layout (tx : PoolL2Tx) (chainID : Nat)
    (hn : tx.nonce < 2 ^ 40) (hto : tx.toIdx < 2 ^ 48)
    (hfrom : tx.fromIdx < 2 ^ 48) (hfee : tx.fee < 2 ^ 8)
    (htok : tx.tokenID < 2 ^ 32) (hamt : tx.amountF16 < 2 ^ 16)
    (hch : chainID < 2 ^ 16) :
    txCompressedData tx chainID = .ok (
      (if tx.toBJJ.sign then 1 else 0) * 256 ^ 30 + tx.fee * 256 ^ 29 +
      tx.nonce * 256 ^ 24 + tx.tokenID * 256 ^ 20 + tx.amountF16 * 256 ^ 18 +
      tx.toIdx * 256 ^ 12 + tx.fromIdx * 256 ^ 6 + chainID * 256 ^ 4 +
      3322668559) ∧
    (txCompressedDataBytes tx chainID).length = 31 ∧
    ∀ b ∈ txCompressedDataBytes tx chainID, b < 256 := by
  refine ⟨?_, ?_, ?_⟩
  · rw [txCompressedData, if_pos hn, if_pos hto, if_pos hfrom]
    rw [Except.ok.injEq]
    rw [txCompressedDataBytes]
    rw [beToNat_append, beToNat_append, beToNat_append, beToNat_append,
      beToNat_append, beToNat_append, beToNat_append, beToNat_append]
    rw [beToNat_beBytes 5 tx.nonce hn, beToNat_beBytes 4 tx.tokenID htok,
      beToNat_beBytes 2 tx.amountF16 hamt, beToNat_beBytes 6 tx.toIdx hto,
      beToNat_beBytes 6 tx.fromIdx hfrom, beToNat_beBytes 2 chainID hch]
    simp only [List.length_append, List.length_cons, List.length_nil,
      beBytes_length, SignatureConstantBytes, beToNat, List.foldl_cons,
      List.foldl_nil]
    ring
  · simp [txCompressedDataBytes, beBytes_length, SignatureConstantBytes]
  · intro b hb
    rw [txCompressedDataBytes] at hb
    simp only [List.mem_append] at hb
    rcases hb with ((((((((h | h) | h) | h) | h) | h) | h) | h) | h)
    · rw [List.mem_singleton] at h
      subst h
      split <;> norm_num
    · rw [List.mem_singleton] at h
      subst h
      omega
    · exact beBytes_mem_lt 5 tx.nonce b h
    · exact beBytes_mem_lt 4 tx.tokenID b h
    · exact beBytes_mem_lt 2 tx.amountF16 b h
    · exact beBytes_mem_lt 6 tx.toIdx b h
    · exact beBytes_mem_lt 6 tx.fromIdx b h
    · exact beBytes_mem_lt 2 chainID b h
    · rw [SignatureConstantBytes] at h
      simp only [List.mem_cons, List.not_mem_nil, or_false] at h
      rcases h with h | h | h | h <;> omega

/-- Witness for C6 at a fully populated tx with chain id 1. -/
theorem c6_compressed_layout_witness :
    txCompressedData txc6 1 = .ok (
      1 * 256 ^ 30 + 126 * 256 ^ 29 + 5 * 256 ^ 24 + 1 * 256 ^ 20 +
      17066 * 256 ^ 18 + 257 * 256 ^ 12 + 256 * 256 ^ 6 + 1 * 256 ^ 4 +
      3322668559) ∧
    (txCompressedDataBytes txc6 1).length = 31 := by
  have h := c6_compressed_layout txc6 1 (by decide) (by decide) (by decide)
    (by decide) (by decide) (by decide) (by decide)
  exact ⟨h.1, h.2.1⟩

/-! ### C4: the ordering produced by `sortL2Txs` -/

/-- The comparator `l2Less` decides the strict lexicographic order
(fee descending, then `FromIdx`, then `Nonce` ascending). -/
theorem l2Less_eq_true (a b : PoolL2Tx) :
    l2Less a b = true ↔
      (b.absoluteFee < a.absoluteFee ∨
        (a.absoluteFee = b.absoluteFee ∧
          (a.fromIdx < b.fromIdx ∨
            (a.fromIdx = b.fromIdx ∧ a.nonce < b.nonce)))) := by
  rw [l2Less]
  split_ifs with h1 h2
  · simp [h1]
  · rw [not_ne_iff] at h1
    simp [h1, h2, lt_irrefl]
  · rw [not_ne_iff] at h1
    rw [not_ne_iff] at h2
    simp [h1, h2, lt_irrefl]

/-- A list sorted by the `sort.Slice` comparator satisfies the non-strict
lexicographic order below. -/
theorem l2SortedLE_char (a b : PoolL2Tx) :
    l2SortedLE a b ↔
      (b.absoluteFee < a.absoluteFee ∨
        (a.absoluteFee = b.absoluteFee ∧
          (a.fromIdx < b.fromIdx ∨
            (a.fromIdx = b.fromIdx ∧ a.nonce ≤ b.nonce)))) := by
  rw [l2SortedLE, ← Bool.not_eq_true, l2Less_eq_true]
  constructor
  · intro h
    rcases lt_trichotomy a.absoluteFee b.absoluteFee with hf | hf | hf
    · exact absurd (Or.inl hf) h
    · refine Or.inr ⟨hf, ?_⟩
      rcases Nat.lt_trichotomy a.fromIdx b.fromIdx with hi | hi | hi
      · exact Or.inl hi
      · refine Or.inr ⟨hi, ?_⟩
        by_contra hn
        push_neg at hn
        exact h (Or.inr ⟨hf.symm, Or.inr ⟨hi.symm, hn⟩⟩)
      · exact absurd (Or.inr ⟨hf.symm, Or.inl hi⟩) h
    · exact Or.inl hf
  · intro h hcon
    rcases h with hf | ⟨hf, hrest⟩
    · rcases hcon with hg | ⟨hg, _⟩
      · exact absurd (lt_trans hf hg) (lt_irrefl _)
      · rw [hg] at hf
        exact lt_irrefl _ hf
    · rcases hcon with hg | ⟨hg, hrest2⟩
      · rw [hf] at hg
        exact lt_irrefl _ hg
      · rcases hrest with hi | ⟨hi, hn⟩ <;> rcases hrest2 with hj | ⟨hj, hm⟩ <;> omega

/-- Totality of the sorted order. -/
theorem l2SortedLE_total (a b : PoolL2Tx) : l2SortedLE a b ∨ l2SortedLE b a := by
  rw [l2SortedLE_char, l2SortedLE_char]
  rcases lt_trichotomy a.absoluteFee b.absoluteFee with hf | hf | hf
  · exact Or.inr (Or.inl hf)
  · rcases Nat.lt_trichotomy a.fromIdx b.fromIdx with hi | hi | hi
    · exact Or.inl (Or.inr ⟨hf, Or.inl hi⟩)
    · rcases Nat.le_total a.nonce b.nonce with hn | hn
      · exact Or.inl (Or.inr ⟨hf, Or.inr ⟨hi, hn⟩⟩)
      · exact Or.inr (Or.inr ⟨hf.symm, Or.inr ⟨hi.symm, hn⟩⟩)
    · exact Or.inr (Or.inr ⟨hf.symm, Or.inl hi⟩)
  · exact Or.inl (Or.inl hf)

/-- Transitivity of the sorted order. -/
theorem l2SortedLE_transitive (a b c : PoolL2Tx)
    (h1 : l2SortedLE a b) (h2 : l2SortedLE b c) : l2SortedLE a c := by
  rw [l2SortedLE_char] at h1 h2 ⊢
  rcases h1 with hf1 | ⟨hf1, h1r⟩ <;> rcases h2 with hf2 | ⟨hf2, h2r⟩
  · exact Or.inl (lt_trans hf2 hf1)
  · exact Or.inl (by rw [← hf2]; exact hf1)
  · exact Or.inl (by rw [hf1]; exact hf2)
  · refine Or.inr ⟨hf1.trans hf2, ?_⟩
    rcases h1r with hi1 | ⟨hi1, hn1⟩ <;> rcases h2r with hi2 | ⟨hi2, hn2⟩
    · exact Or.inl (by omega)
    · exact Or.inl (by omega)
    · exact Or.inl (by omega)
    · exact Or.inr ⟨by omega, by omega⟩

/-- Collected atomic-group ids are never the empty id. -/
theorem atomicGroupIDs_ne (txs : List PoolL2Tx) :
    ∀ gid ∈ atomicGroupIDs txs, gid ≠ EmptyAtomicGroupID := by
  have aux : ∀ (l : List PoolL2Tx) (acc : List Nat),
      (∀ g ∈ acc, g ≠ EmptyAtomicGroupID) →
      ∀ gid ∈ l.foldl agStep acc, gid ≠ EmptyAtomicGroupID := by
    intro l
    induction l with
    | nil => intro acc hacc gid hg; exact hacc gid hg
    | cons tx rest ih =>
        intro acc hacc gid hg
        rw [List.foldl_cons] at hg
        refine ih (agStep acc tx) ?_ gid hg
        intro g hmem
        rw [agStep] at hmem
        split at hmem
        next hcond =>
          rcases List.mem_append.mp hmem with h | h
          · exact hacc g h
          · rw [List.mem_singleton] at h
            subst h
            exact hcond.1
        next => exact hacc g hmem
  exact aux txs [] (by intro g hg; exact absurd hg (List.not_mem_nil g))

/-- Filtering the merge by a predicate true on every non-atomic tx and
false inside every group recovers exactly the non-atomic list. -/
theorem mergeTxs_filter_na (fm : Nat → ℚ) (p : PoolL2Tx → Bool) :
    ∀ (na : List PoolL2Tx) (gs : List (List PoolL2Tx)),
      (∀ x ∈ na, p x = true) → (∀ g ∈ gs, ∀ t ∈ g, p t = false) →
      (mergeTxs fm na gs).filter p = na := by
  intro na gs
  induction na, gs using mergeTxs.induct fm with
  | case1 gs =>
      intro _ hgs
      rw [mergeTxs]
      rw [List.filter_eq_nil_iff]
      intro t ht
      rw [List.mem_flatten] at ht
      obtain ⟨g, hg, htg⟩ := ht
      simp [hgs g hg t htg]
  | case2 x na =>
      intro hna _
      rw [mergeTxs]
      exact List.filter_eq_self.mpr hna
  | case3 x na g gs hlt ih =>
      intro hna hgs
      rw [mergeTxs, if_pos hlt, List.filter_cons_of_pos (hna x (List.mem_cons_self x na))]
      rw [ih (fun t ht => hna t (List.mem_cons_of_mem x ht)) hgs]
  | case4 x na g gs hlt ih =>
      intro hna hgs
      rw [mergeTxs, if_neg hlt, List.filter_append]
      have hg0 : List.filter p g = [] := by
        rw [List.filter_eq_nil_iff]
        intro t ht
        simp [hgs g (List.mem_cons_self g gs) t ht]
      rw [hg0, ih hna (fun h hh => hgs h (List.mem_cons_of_mem g hh)), List.nil_append]

/-- Every group of the merged-in list appears in the output as a sublist:
its member order is never permuted (it even stays contiguous). -/
theorem mergeTxs_sublist_group (fm : Nat → ℚ) :
    ∀ (na : List PoolL2Tx) (gs : List (List PoolL2Tx)) (g : List PoolL2Tx),
      g ∈ gs → g.Sublist (mergeTxs fm na gs) := by
  intro na gs
  induction na, gs using mergeTxs.induct fm with
  | case1 gs =>
      intro g hg
      rw [mergeTxs]
      exact List.sublist_flatten_of_mem hg
  | case2 x na =>
      intro g hg
      exact absurd hg (List.not_mem_nil g)
  | case3 x na g gs hlt ih =>
      intro h hh
      rw [mergeTxs, if_pos hlt]
      exact List.Sublist.cons x (ih h hh)
  | case4 x na g gs hlt ih =>
      intro h hh
      rw [mergeTxs, if_neg hlt]
      rcases List.mem_cons.mp hh with rfl | hh2
      · exact List.sublist_append_left h (mergeTxs fm (x :: na) gs)
      · exact (ih h hh2).trans (List.sublist_append_right g (mergeTxs fm (x :: na) gs))

/-- C4 (amended): `sortL2Txs` leaves the non-atomic txs of its output
sorted by `(AbsoluteFee desc, FromIdx asc, Nonce asc)`; the member list of
every atomic group reappears in the output contiguously and in pool order;
and when the next non-atomic tx's fee equals the next group's average fee
the merge emits the atomic group first (the non-atomic tx wins only a
strict fee comparison). -/
theorem c4_sort_order (fm : Nat → ℚ) (txs : List PoolL2Tx) (gid : Nat)
    (x : PoolL2Tx) (na : List PoolL2Tx) (g : List PoolL2Tx)
    (gs : List (List PoolL2Tx))
    (hgid : gid ∈ atomicGroupIDs txs)
    (htie : x.absoluteFee = groupFee fm g) :
    List.Sorted l2SortedLE (nonAtomicTxs (sortL2Txs fm txs)) ∧
    (groupTxs txs gid).Sublist (sortL2Txs fm txs) ∧
    mergeTxs fm (x :: na) (g :: gs) = g ++ mergeTxs fm (x :: na) gs := by
  haveI htot : IsTotal PoolL2Tx l2SortedLE := ⟨l2SortedLE_total⟩
  haveI htrans : IsTrans PoolL2Tx l2SortedLE :=
    ⟨fun a b c => l2SortedLE_transitive a b c⟩
  refine ⟨?_, ?_, ?_⟩
  · have hfil : nonAtomicTxs (sortL2Txs fm txs) =
        (nonAtomicTxs txs).insertionSort l2SortedLE := by
      rw [nonAtomicTxs, sortL2Txs]
      apply mergeTxs_filter_na
      · intro t ht
        have hmem : t ∈ nonAtomicTxs txs :=
          (List.perm_insertionSort l2SortedLE (nonAtomicTxs txs)).mem_iff.mp ht
        rw [nonAtomicTxs, List.mem_filter] at hmem
        exact hmem.2
      · intro h hh t ht
        have hmem : h ∈ atomicGroupsList txs :=
          (List.perm_insertionSort (groupLE fm) (atomicGroupsList txs)).mem_iff.mp hh
        rw [atomicGroupsList] at hmem
        obtain ⟨hid, hidmem, rfl⟩ := List.mem_map.mp hmem
        rw [groupTxs, List.mem_filter] at ht
        have hne := atomicGroupIDs_ne txs hid hidmem
        have : t.atomicGroupID = hid := by
          have := ht.2
          simpa using this
        simp [this, hne]
    rw [hfil]
    exact List.sorted_insertionSort l2SortedLE (nonAtomicTxs txs)
  · rw [sortL2Txs]
    apply mergeTxs_sublist_group
    have : groupTxs txs gid ∈ atomicGroupsList txs := by
      rw [atomicGroupsList]
      exact List.mem_map_of_mem (groupTxs txs) hgid
    exact (List.perm_insertionSort (groupLE fm) (atomicGroupsList txs)).mem_iff.mpr this
  · rw [mergeTxs, if_neg (by rw [htie]; exact lt_irrefl _)]

/-- The average fee of the singleton group 1 in `c4txs` is exactly 1. -/
theorem c4_avg_eval : calculateAtomicGroupsAverageFee c4txs 1 = 1 := by
  simp [calculateAtomicGroupsAverageFee, c4txs, c4x, c4a, baseTx]

/-- The fee of `c4x` ties with the average fee the merge reads for the
group `[c4a]`. -/
theorem c4_tie_eval :
    c4x.absoluteFee = groupFee (calculateAtomicGroupsAverageFee c4txs) [c4a] := by
  have hh : groupFee (calculateAtomicGroupsAverageFee c4txs) [c4a] =
      calculateAtomicGroupsAverageFee c4txs 1 := by
    simp [groupFee, c4a, baseTx]
  rw [hh, c4_avg_eval]
  rfl

/-- The sorted output of the tied two-tx pool: the atomic group comes
first. -/
theorem c4_sorted_eval :
    sortL2Txs (calculateAtomicGroupsAverageFee c4txs) c4txs = [c4a, c4x] := by
  have h1 : nonAtomicTxs c4txs = [c4x] := by
    simp [nonAtomicTxs, c4txs, c4x, c4a, baseTx, EmptyAtomicGroupID]
  have h2 : atomicGroupIDs c4txs = [1] := by
    simp [atomicGroupIDs, agStep, c4txs, c4x, c4a, baseTx, EmptyAtomicGroupID]
  have h3 : atomicGroupsList c4txs = [[c4a]] := by
    rw [atomicGroupsList, h2]
    simp [groupTxs, c4txs, c4x, c4a, baseTx]
  rw [sortL2Txs, h1, h3]
  rw [show ([c4x].insertionSort l2SortedLE) = [c4x] from rfl]
  rw [show ([[c4a]].insertionSort
      (groupLE (calculateAtomicGroupsAverageFee c4txs))) = [[c4a]] from rfl]
  rw [mergeTxs, if_neg (by rw [← c4_tie_eval]; exact lt_irrefl _)]
  rw [mergeTxs]
  rfl

/-- Witness for C4: the amended ordering facts at the two-tx pool with a
fee tie between the non-atomic tx and the singleton atomic group. -/
theorem c4_sort_order_witness :
    (groupTxs c4txs 1).Sublist (sortL2Txs (calculateAtomicGroupsAverageFee c4txs) c4txs) ∧
    mergeTxs (calculateAtomicGroupsAverageFee c4txs) [c4x] [[c4a]] =
      [c4a] ++ mergeTxs (calculateAtomicGroupsAverageFee c4txs) [c4x] [] := by
  have hgid : (1 : Nat) ∈ atomicGroupIDs c4txs := by
    simp [atomicGroupIDs, agStep, c4txs, c4x, c4a, baseTx, EmptyAtomicGroupID]
  have h := c4_sort_order (calculateAtomicGroupsAverageFee c4txs) c4txs 1
    c4x [] [c4a] [] hgid c4_tie_eval
  exact ⟨h.2.1, h.2.2⟩

/-- C4 counterexample: on a fee tie the code emits the atomic group before
the non-atomic tx, not after it as the claim states: with both fees equal
to 1, the sorted output is `[c4a, c4x]`, not `[c4x, c4a]`. -/
theorem c4_sort_order_counterexample :
    c4x.absoluteFee = calculateAtomicGroupsAverageFee c4txs c4a.atomicGroupID ∧
    sortL2Txs (calculateAtomicGroupsAverageFee c4txs) c4txs = [c4a, c4x] ∧
    sortL2Txs (calculateAtomicGroupsAverageFee c4txs) c4txs ≠ [c4x, c4a] := by
  refine ⟨?_, c4_sorted_eval, ?_⟩
  · rw [show c4a.atomicGroupID = 1 from rfl, c4_avg_eval]
    rfl
  · rw [c4_sorted_eval]
    intro h
    injection h with h1 h2
    have := congrArg PoolL2Tx.nonce h1
    simp [c4a, c4x, baseTx] at this

/-! ### C2: `isSingleAtomicGroup` detects exactly the single-SCC graphs

`graph.StrongComponents` returning a single component means that the graph
is nonempty and every node reaches every node; the embedded decision
procedure computes reachable sets by `n + 1` rounds of expansion, below
proved sound and complete for the reflexive-transitive closure of the edge
relation. -/

theorem reachStep_subset (n : Nat) (adj : Nat → Nat → Bool) (S : Finset Nat) :
    S ⊆ reachStep n adj S :=
  Finset.subset_union_left

theorem iterate_reach_mono (n : Nat) (adj : Nat → Nat → Bool) (i : Nat) :
    ∀ k m, k ≤ m →
      (reachStep n adj)^[k] {i} ⊆ (reachStep n adj)^[m] {i} := by
  have hone : ∀ k, (reachStep n adj)^[k] {i} ⊆ (reachStep n adj)^[k + 1] {i} := by
    intro k
    rw [Function.iterate_succ_apply']
    exact reachStep_subset n adj _
  intro k m hkm
  induction m with
  | zero =>
      have : k = 0 := by omega
      subst this
      exact Finset.Subset.refl _
  | succ m ih =>
      by_cases h : k ≤ m
      · exact (ih h).trans (hone m)
      · have : k = m + 1 := by omega
        subst this
        exact Finset.Subset.refl _

theorem iterate_reach_bound (n : Nat) (adj : Nat → Nat → Bool) (i : Nat) :
    ∀ k, (reachStep n adj)^[k] {i} ⊆ insert i (Finset.range n) := by
  intro k
  induction k with
  | zero =>
      simp
  | succ k ih =>
      rw [Function.iterate_succ_apply', reachStep]
      exact Finset.union_subset ih
        ((Finset.filter_subset _ _).trans (Finset.subset_insert i _))

/-- After `n + 1` rounds the expansion has reached its fixpoint: every
further iterate is contained in `reachSet`. -/
theorem reach_fix (n : Nat) (adj : Nat → Nat → Bool) (i : Nat) :
    ∀ k, (reachStep n adj)^[k] {i} ⊆ reachSet n adj i := by
  have hchain := iterate_reach_mono n adj i
  have hbound := iterate_reach_bound n adj i
  have hex : ∃ m, m ≤ n + 1 ∧
      (reachStep n adj)^[m + 1] {i} = (reachStep n adj)^[m] {i} := by
    by_contra hcon
    push_neg at hcon
    have hgrow : ∀ m, m ≤ n + 2 → m + 1 ≤ ((reachStep n adj)^[m] {i}).card := by
      intro m
      induction m with
      | zero => intro _; simp
      | succ m ih =>
          intro hm
          have h1 : (reachStep n adj)^[m] {i} ⊂ (reachStep n adj)^[m + 1] {i} := by
            rw [Finset.ssubset_iff_subset_ne]
            exact ⟨hchain m (m + 1) (by omega),
              fun h => hcon m (by omega) h.symm⟩
          have h2 := Finset.card_lt_card h1
          have h3 := ih (by omega)
          omega
    have hcard : ((reachStep n adj)^[n + 2] {i}).card ≤ n + 1 := by
      calc ((reachStep n adj)^[n + 2] {i}).card
          ≤ (insert i (Finset.range n)).card :=
            Finset.card_le_card (hbound (n + 2))
        _ ≤ (Finset.range n).card + 1 := Finset.card_insert_le i _
        _ = n + 1 := by rw [Finset.card_range]
    have := hgrow (n + 2) (le_refl _)
    omega
  obtain ⟨m, hm, hfixm⟩ := hex
  have hstab : ∀ k, (reachStep n adj)^[m + k] {i} = (reachStep n adj)^[m] {i} := by
    intro k
    induction k with
    | zero => rfl
    | succ k ih =>
        have hmk : m + (k + 1) = (m + k) + 1 := by omega
        rw [hmk, Function.iterate_succ_apply', ih,
          ← Function.iterate_succ_apply' (reachStep n adj) m {i}]
        exact hfixm
  intro k
  rw [reachSet]
  by_cases hk : k ≤ n + 1
  · exact hchain k (n + 1) hk
  · have h1 : (reachStep n adj)^[k] {i} = (reachStep n adj)^[m] {i} := by
      have hk2 : k = m + (k - m) := by omega
      rw [hk2, hstab (k - m)]
    have h2 : (reachStep n adj)^[n + 1] {i} = (reachStep n adj)^[m] {i} := by
      have hn2 : n + 1 = m + (n + 1 - m) := by omega
      rw [hn2, hstab (n + 1 - m)]
    rw [h1, h2]

/-- Soundness: membership in an iterate witnesses a path in the graph. -/
theorem reach_sound (n : Nat) (adj : Nat → Nat → Bool) (i : Nat) :
    ∀ k j, j ∈ (reachStep n adj)^[k] {i} →
      Relation.ReflTransGen (GStep n adj) i j := by
  intro k
  induction k with
  | zero =>
      intro j hj
      rw [Function.iterate_zero_apply, Finset.mem_singleton] at hj
      subst hj
      exact Relation.ReflTransGen.refl
  | succ k ih =>
      intro j hj
      rw [Function.iterate_succ_apply', reachStep] at hj
      rcases Finset.mem_union.mp hj with h | h
      · exact ih j h
      · rw [Finset.mem_filter] at h
        obtain ⟨hrange, v, hv, hadj⟩ := h
        exact Relation.ReflTransGen.tail (ih v hv)
          ⟨Finset.mem_range.mp hrange, hadj⟩

/-- Completeness: every path of the graph lands in the reachable set. -/
theorem reach_complete (n : Nat) (adj : Nat → Nat → Bool) (i j : Nat)
    (h : Relation.ReflTransGen (GStep n adj) i j) : j ∈ reachSet n adj i := by
  induction h with
  | refl =>
      exact iterate_reach_mono n adj i 0 (n + 1) (by omega) (by simp)
  | tail hab hbc ih =>
      refine reach_fix n adj i (n + 2) ?_
      rw [show n + 2 = (n + 1) + 1 from rfl, Function.iterate_succ_apply',
        reachStep]
      apply Finset.mem_union_right
      rw [Finset.mem_filter]
      exact ⟨Finset.mem_range.mpr hbc.1, ⟨_, ih, hbc.2⟩⟩

/-- `idToPos` on a cons resolves iff the tail resolves or the head
matches. -/
theorem idToPos_cons_isSome (tx : PoolL2Tx) (rest : List PoolL2Tx) (id : TxID) :
    (idToPos (tx :: rest) id).isSome = true ↔
      ((idToPos rest id).isSome = true ∨ tx.txID = id) := by
  rw [idToPos]
  cases h : idToPos rest id with
  | some j => simp
  | none => by_cases heq : tx.txID = id <;> simp [heq]

/-- `idToPos` resolves an id exactly when some tx of the list carries it. -/
theorem idToPos_isSome (txs : List PoolL2Tx) (id : TxID) :
    (idToPos txs id).isSome = true ↔ ∃ t2 ∈ txs, t2.txID = id := by
  induction txs with
  | nil => simp [idToPos]
  | cons tx rest ih =>
      rw [idToPos_cons_isSome, ih]
      constructor
      · rintro (⟨t2, hm, he⟩ | heq)
        · exact ⟨t2, List.mem_cons_of_mem tx hm, he⟩
        · exact ⟨tx, List.mem_cons_self tx rest, heq⟩
      · rintro ⟨t2, hmem, he⟩
        rcases List.mem_cons.mp hmem with rfl | hm
        · exact Or.inr he
        · exact Or.inl ⟨t2, hm, he⟩

/-- C2: `isSingleAtomicGroup` returns true exactly when the submission is
nonempty, every tx's `RqTxID` is non-empty and names a tx of the list, and
every position reaches every position along request edges — i.e. the
request graph has exactly one strongly connected component covering all
txs.  In particular an empty or unresolved `RqTxID` forces false. -/
theorem c2_isSingleAtomicGroup (txs : List PoolL2Tx) :
    isSingleAtomicGroup txs = true ↔
      (txs ≠ [] ∧
        (∀ tx ∈ txs, tx.rqTxID ≠ EmptyTxID ∧ ∃ t2 ∈ txs, t2.txID = tx.rqTxID) ∧
        ∀ i j, i < txs.length → j < txs.length → TxReach txs i j) := by
  rw [isSingleAtomicGroup]
  split
  next hall =>
    have hcond : ∀ tx ∈ txs,
        tx.rqTxID ≠ EmptyTxID ∧ ∃ t2 ∈ txs, t2.txID = tx.rqTxID := by
      intro tx ht
      have h := List.all_eq_true.mp hall tx ht
      rw [Bool.and_eq_true, Bool.not_eq_true', decide_eq_false_iff_not] at h
      exact ⟨h.1, (idToPos_isSome txs tx.rqTxID).mp h.2⟩
    rw [sccCountOne, Bool.and_eq_true, decide_eq_true_eq, List.all_eq_true]
    constructor
    · rintro ⟨hlen, halls⟩
      refine ⟨?_, hcond, ?_⟩
      · intro h
        rw [h] at hlen
        simp at hlen
      · intro i j hi hj
        have h1 := List.all_eq_true.mp (halls i (List.mem_range.mpr hi)) j
          (List.mem_range.mpr hj)
        rw [reachB, decide_eq_true_eq] at h1
        exact reach_sound txs.length (txEdge txs) i (txs.length + 1) j h1
    · rintro ⟨hne, _, hreach⟩
      refine ⟨List.length_pos.mpr hne, ?_⟩
      intro i hi
      rw [List.all_eq_true]
      intro j hj
      rw [reachB, decide_eq_true_eq]
      exact reach_complete txs.length (txEdge txs) i j
        (hreach i j (List.mem_range.mp hi) (List.mem_range.mp hj))
  next hall =>
    constructor
    · intro h
      exact absurd h (by simp)
    · rintro ⟨hne, hcond, _⟩
      exfalso
      apply hall
      rw [List.all_eq_true]
      intro tx ht
      rw [Bool.and_eq_true, Bool.not_eq_true', decide_eq_false_iff_not]
      exact ⟨(hcond tx ht).1, (idToPos_isSome txs tx.rqTxID).mpr (hcond tx ht).2⟩

end HermezNode
